import Mathlib

/-
Verification of the rewildingCities orchestration engine
(canopy/envelope.py, canopy/orchestrator/{dependencies,references,orchestrator}.py)
against its natural-language specification.

Shallow embedding conventions:
  * Python dicts are modelled as association lists whose keys are unique
    (Python dict keys are unique); lookup is first-match.
  * Python sets are modelled as duplicate-free lists built by
    insert-if-absent, mirroring set.add.
  * "Any" JSON/YAML-ish values are modelled by the recursive type JVal;
    floats are carried as rationals (they are only ever passed through,
    never computed with, in the code regions under study).
  * Functions that can raise are modelled with Option/Except.
  * Recursive procedures whose termination depends on runtime invariants
    (DFS, Kahn's loop, cycle reconstruction) take an explicit fuel
    parameter; the top-level wrappers pass the fuel the proofs show
    sufficient.
-/

namespace RC

/-- Dynamic values (JSON/YAML scalars, lists, and string-keyed maps). -/
inductive JVal where
  | null : JVal
  | bool (b : Bool) : JVal
  | num (q : Rat) : JVal
  | str (s : String) : JVal
  | arr (xs : List JVal) : JVal
  | obj (fields : List (String × JVal)) : JVal

/-- Python dict lookup (`d[k]` / `d.get(k)`): first matching key. -/
def jLookup (d : List (String × JVal)) (k : String) : Option JVal :=
  (d.find? (fun p => p.1 = k)).map (fun p => p.2)

/-- Python dict assignment `d[k] = v`: replace in place if the key exists,
append otherwise. -/
def jSet (d : List (String × JVal)) (k : String) (v : JVal) : List (String × JVal) :=
  if (d.find? (fun p => p.1 = k)).isSome then
    d.map (fun p => if p.1 = k then (k, v) else p)
  else
    d ++ [(k, v)]

/-- canopy/envelope.py HashInfo. -/
structure HashInfo where
  value : Option String
  method : String
  algorithm : Option String := none
  reason : Option String := none
deriving DecidableEq

/-- canopy/envelope.py InputRecord. -/
structure InputRecord where
  name : String
  semantic_type : String
  path : String
  hash : HashInfo
deriving DecidableEq

/-- canopy/envelope.py ProvenanceEntry. -/
structure ProvenanceEntry where
  primitive : String
  version : String
  timestamp : String
  params : List (String × JVal)
  inputs : List InputRecord
  duration_seconds : Rat
  lineage_branch : Option String := none

/-- canopy/envelope.py Warning. -/
structure PipeWarning where
  level : String
  primitive : String
  message : String
deriving DecidableEq

/-- canopy/envelope.py Envelope. -/
structure Envelope where
  data : List (String × JVal)
  metadata : List (String × JVal)
  provenance : List ProvenanceEntry
  warnings : List PipeWarning

/-- The hash sub-dictionary built inside Envelope.to_dict: the comprehension
keeps only the pairs whose value is not None, in the insertion order
value, method, algorithm, reason. -/
def hashToDict (h : HashInfo) : List (String × JVal) :=
  (match h.value with
   | some v => [("value", JVal.str v)]
   | none => []) ++
  [("method", JVal.str h.method)] ++
  (match h.algorithm with
   | some a => [("algorithm", JVal.str a)]
   | none => []) ++
  (match h.reason with
   | some r => [("reason", JVal.str r)]
   | none => [])

def inputToDict (i : InputRecord) : JVal :=
  JVal.obj
    [("name", JVal.str i.name),
     ("semantic_type", JVal.str i.semantic_type),
     ("path", JVal.str i.path),
     ("hash", JVal.obj (hashToDict i.hash))]

def optStrToJ : Option String → JVal
  | some s => JVal.str s
  | none => JVal.null

def provToDict (p : ProvenanceEntry) : JVal :=
  JVal.obj
    [("primitive", JVal.str p.primitive),
     ("version", JVal.str p.version),
     ("timestamp", JVal.str p.timestamp),
     ("params", JVal.obj p.params),
     ("inputs", JVal.arr (p.inputs.map inputToDict)),
     ("duration_seconds", JVal.num p.duration_seconds),
     ("lineage_branch", optStrToJ p.lineage_branch)]

def warnToDict (w : PipeWarning) : JVal :=
  JVal.obj
    [("level", JVal.str w.level),
     ("primitive", JVal.str w.primitive),
     ("message", JVal.str w.message)]

/-- Envelope.to_dict. -/
def toDict (e : Envelope) : JVal :=
  JVal.obj
    [("data", JVal.obj e.data),
     ("metadata", JVal.obj e.metadata),
     ("provenance", JVal.arr (e.provenance.map provToDict)),
     ("warnings", JVal.arr (e.warnings.map warnToDict))]

def asObj : JVal → Option (List (String × JVal))
  | JVal.obj d => some d
  | _ => none

def asArr : JVal → Option (List JVal)
  | JVal.arr xs => some xs
  | _ => none

def asStr : JVal → Option String
  | JVal.str s => some s
  | _ => none

def asNum : JVal → Option Rat
  | JVal.num q => some q
  | _ => none

/-- Decode a value that Python would bind to a str-or-None field. -/
def decodeOptStr : JVal → Option (Option String)
  | JVal.null => some none
  | JVal.str s => some (some s)
  | _ => none

/-- Typed field access on a decoded dict: `d[k]` then shape check. -/
def jGetStr (d : List (String × JVal)) (k : String) : Option String :=
  (jLookup d k).bind asStr

def jGetObj (d : List (String × JVal)) (k : String) : Option (List (String × JVal)) :=
  (jLookup d k).bind asObj

def jGetArr (d : List (String × JVal)) (k : String) : Option (List JVal) :=
  (jLookup d k).bind asArr

def jGetNum (d : List (String × JVal)) (k : String) : Option Rat :=
  (jLookup d k).bind asNum

/-- Python `d.get(k)` for a str-or-None field: absent key gives None. -/
def jGetOptStr (d : List (String × JVal)) (k : String) : Option (Option String) :=
  match jLookup d k with
  | none => some none
  | some v => decodeOptStr v

/-- HashInfo reconstruction inside Envelope.from_dict:
value is read with direct indexing (`i["hash"]["value"]`, KeyError when
absent, hence `none` here), algorithm and reason with `.get`. -/
def hashFromDict (d : List (String × JVal)) : Option HashInfo := do
  let vj ← jLookup d "value"
  let value ← decodeOptStr vj
  let method ← jGetStr d "method"
  let algorithm ← jGetOptStr d "algorithm"
  let reason ← jGetOptStr d "reason"
  pure (HashInfo.mk value method algorithm reason)

def inputFromDict (j : JVal) : Option InputRecord := do
  let d ← asObj j
  let name ← jGetStr d "name"
  let st ← jGetStr d "semantic_type"
  let path ← jGetStr d "path"
  let hd ← jGetObj d "hash"
  let h ← hashFromDict hd
  pure (InputRecord.mk name st path h)

def provFromDict (j : JVal) : Option ProvenanceEntry := do
  let d ← asObj j
  let primitive ← jGetStr d "primitive"
  let version ← jGetStr d "version"
  let timestamp ← jGetStr d "timestamp"
  let params ← jGetObj d "params"
  let inputsJ ← jGetArr d "inputs"
  let inputs ← inputsJ.mapM inputFromDict
  let duration ← jGetNum d "duration_seconds"
  let lineage ← jGetOptStr d "lineage_branch"
  pure (ProvenanceEntry.mk primitive version timestamp params inputs duration lineage)

def warnFromDict (j : JVal) : Option PipeWarning := do
  let d ← asObj j
  let level ← jGetStr d "level"
  let primitive ← jGetStr d "primitive"
  let message ← jGetStr d "message"
  pure (PipeWarning.mk level primitive message)

/-- Envelope.from_dict. -/
def fromDict (j : JVal) : Option Envelope := do
  let d ← asObj j
  let dataD ← jGetObj d "data"
  let metaD ← jGetObj d "metadata"
  let provJ ← jGetArr d "provenance"
  let prov ← provJ.mapM provFromDict
  let warnJ ← jGetArr d "warnings"
  let warns ← warnJ.mapM warnFromDict
  pure (Envelope.mk dataD metaD prov warns)

/-- A concrete valid Envelope whose single provenance entry records an input
hashed under the test profile: HashInfo(value=None, method="skipped",
reason="test profile"), exactly what Hasher.hash_file produces there. -/
def skippedHashEnvelope : Envelope :=
  { data := [("path", JVal.str "out.geojson"), ("format", JVal.str "geojson"),
             ("secondary", JVal.obj [])],
    metadata := [("semantic_type", JVal.str "park_boundaries"),
                 ("data_category", JVal.str "vector")],
    provenance :=
      [{ primitive := "validate_boundaries", version := "1.0.0",
         timestamp := "2026-01-01T00:00:00+00:00", params := [],
         inputs :=
           [{ name := "parks", semantic_type := "park_boundaries",
              path := "data/parks.geojson",
              hash := { value := none, method := "skipped",
                        algorithm := none, reason := some "test profile" } }],
         duration_seconds := 1/2, lineage_branch := none }],
    warnings := [] }

/-- Claim C3: the spec says Envelope.from_dict(envelope.to_dict()) succeeds and
round-trips every valid Envelope, including one whose HashInfo has value None
with method "skipped". The code violates this: to_dict omits the "value" key
when the hash value is None, and from_dict reads it with direct indexing, so
deserialization fails (KeyError in Python, none here) on such an Envelope. -/
theorem claim_C3_roundtrip_fails_on_skipped_hash :
    fromDict (toDict skippedHashEnvelope) = none ∧
    (skippedHashEnvelope.provenance.head?.elim False
      (fun p => p.inputs.head?.elim False
        (fun i => i.hash.value = none ∧ i.hash.method = "skipped"))) := by
  constructor
  · rfl
  · simp [skippedHashEnvelope]

/-! Envelope builder: provenance merging (canopy/envelope.py EnvelopeBuilder). -/

/-- canopy/envelope.py EnvelopeInput (fields relevant to provenance merging). -/
structure EnvelopeInput where
  name : String
  envelope : Option Envelope := none
  path : Option String := none
  semantic_type : Option String := none

/-- The per-entry tagging in EnvelopeBuilder._merge_provenance:
lineage_branch := inp.name if entry.lineage_branch is None else entry.lineage_branch. -/
def tagEntry (nm : String) (entry : ProvenanceEntry) : ProvenanceEntry :=
  ProvenanceEntry.mk entry.primitive entry.version entry.timestamp entry.params
    entry.inputs entry.duration_seconds
    (match entry.lineage_branch with
     | none => some nm
     | some b => some b)

/-- EnvelopeBuilder._merge_provenance: the double loop accumulating tagged
inherited entries, then appending the new entry. -/
def mergeProvenance (inputs : List EnvelopeInput) (new_entry : ProvenanceEntry) :
    List ProvenanceEntry :=
  (inputs.foldl
    (fun merged inp =>
      match inp.envelope with
      | some env => merged ++ env.provenance.map (tagEntry inp.name)
      | none => merged)
    []) ++ [new_entry]

/-- The provenance chain an input contributes to the merge. -/
def inheritedChain (inp : EnvelopeInput) : List ProvenanceEntry :=
  match inp.envelope with
  | some env => env.provenance.map (tagEntry inp.name)
  | none => []

theorem mergeProvenance_foldl_flatten (inputs : List EnvelopeInput)
    (acc : List ProvenanceEntry) :
    inputs.foldl
      (fun merged inp =>
        match inp.envelope with
        | some env => merged ++ env.provenance.map (tagEntry inp.name)
        | none => merged)
      acc = acc ++ inputs.flatMap inheritedChain := by
  induction inputs generalizing acc with
  | nil => simp
  | cons inp rest ih =>
    cases h : inp.envelope with
    | none => simp [List.foldl_cons, h, ih, inheritedChain]
    | some env => simp [List.foldl_cons, h, ih, inheritedChain]

/-- A concrete new ProvenanceEntry already carrying a lineage branch. -/
def entryWithBranch : ProvenanceEntry :=
  ProvenanceEntry.mk "own_step" "1.0.0" "2026-01-01T00:00:00+00:00" [] [] 0
    (some "branch_x")

/-- Claim C4 counterexample: _merge_provenance appends the caller's new entry
verbatim, so for a new ProvenanceEntry whose lineage_branch is already set the
last element of the result does not have lineage_branch None, contradicting
the claim's assertion that the step's own new entry's lineage_branch is None
for every new ProvenanceEntry. -/
theorem claim_C4_counterexample :
    (mergeProvenance [] entryWithBranch).getLast? = some entryWithBranch ∧
    entryWithBranch.lineage_branch = some "branch_x" ∧
    some "branch_x" ≠ (none : Option String) := by
  refine ⟨rfl, rfl, by simp⟩

/-- Claim C4 (amended): _merge_provenance returns the concatenation of every
input Envelope's provenance chain — each inherited entry keeping its existing
lineage_branch when it already had one and otherwise receiving that input's
name — followed by the step's own new entry appended unchanged as the last
element (so its lineage_branch is None exactly when the caller constructed it
with None, as EnvelopeBuilder.run does); no inherited entry is dropped or
de-duplicated, so the result's length is the sum of the input Envelopes'
provenance lengths plus one. -/
theorem claim_C4_merge_provenance (inputs : List EnvelopeInput)
    (new_entry : ProvenanceEntry) :
    mergeProvenance inputs new_entry
      = inputs.flatMap inheritedChain ++ [new_entry] ∧
    (mergeProvenance inputs new_entry).getLast? = some new_entry ∧
    (mergeProvenance inputs new_entry).length
      = (inputs.map
          (fun inp => (inp.envelope.elim 0 (fun env => env.provenance.length)))).sum
        + 1 ∧
    (∀ nm entry, entry.lineage_branch = none →
      (tagEntry nm entry).lineage_branch = some nm) ∧
    (∀ nm entry b, entry.lineage_branch = some b →
      (tagEntry nm entry).lineage_branch = some b) := by
  have hflat : mergeProvenance inputs new_entry
      = inputs.flatMap inheritedChain ++ [new_entry] := by
    unfold mergeProvenance
    rw [mergeProvenance_foldl_flatten]
    simp
  refine ⟨hflat, ?_, ?_, ?_, ?_⟩
  · rw [hflat]
    simp
  · rw [hflat, List.length_append, List.length_flatMap]
    congr 1
    apply congrArg
    apply List.map_congr_left
    intro inp _
    cases h : inp.envelope <;> simp [inheritedChain, h]
  · intro nm entry h
    simp [tagEntry, h]
  · intro nm entry b h
    simp [tagEntry, h]

/-! Reference grammar (canopy/orchestrator/references.py). -/

/-- Character class [a-zA-Z] of the reference regexes. -/
def isAsciiLetter (c : Char) : Bool :=
  ('a' ≤ c && c ≤ 'z') || ('A' ≤ c && c ≤ 'Z')

/-- First character of an identifier group: [a-zA-Z_]. -/
def isIdentStart (c : Char) : Bool := isAsciiLetter c || c = '_'

/-- Later characters of an identifier group: [a-zA-Z0-9_]. -/
def isIdentChar (c : Char) : Bool := isIdentStart c || ('0' ≤ c && c ≤ '9')

/-- Consume an exact literal from the front, returning the remainder. -/
def dropLit : List Char → List Char → Option (List Char)
  | [], cs => some cs
  | _ :: _, [] => none
  | l :: ls, c :: cs => if c = l then dropLit ls cs else none

/-- Match an entire identifier group anchored to the end of the string. -/
def matchIdentAll (cs : List Char) : Option String :=
  match cs with
  | [] => none
  | c :: rest =>
    if isIdentStart c && rest.all isIdentChar then some (String.mk (c :: rest))
    else none

/-- MANIFEST_PATTERN fullmatch, returning the dataset name group. -/
def manifestPatternMatch (s : String) : Option String :=
  (dropLit "$manifest.".data s.data).bind matchIdentAll

/-- CHOICES_PATTERN fullmatch, returning the choice name group. -/
def choicesPatternMatch (s : String) : Option String :=
  (dropLit "$choices.".data s.data).bind matchIdentAll

/-- PARAMETERS_PATTERN fullmatch, returning the parameter name group. -/
def parametersPatternMatch (s : String) : Option String :=
  (dropLit "$parameters.".data s.data).bind matchIdentAll

/-- STEPS_PATTERN of references.py (anchored at both ends), returning the
step id and output name groups. The identifier classes contain no dot, so
the greedy first group is the maximal identifier run. -/
def stepsPatternMatch (s : String) : Option (String × String) :=
  match dropLit "$steps.".data s.data with
  | none => none
  | some rest =>
    match rest.takeWhile isIdentChar, rest.dropWhile isIdentChar with
    | c :: g1, '.' :: rest2 =>
      if isIdentStart c then
        (matchIdentAll rest2).map (fun g2 => (String.mk (c :: g1), g2))
      else none
    | _, _ => none

/-- STEPS_PATTERN of dependencies.py used with re.match: anchored at the
start of the string only, free at the end; returns group 1 (the step id). -/
def stepsPatternAtStart (s : String) : Option String :=
  match dropLit "$steps.".data s.data with
  | none => none
  | some rest =>
    match rest.takeWhile isIdentChar, rest.dropWhile isIdentChar with
    | c :: g1, '.' :: c2 :: _ =>
      if isIdentStart c && isIdentStart c2 then some (String.mk (c :: g1))
      else none
    | _, _ => none

/-- LOOKS_LIKE_REFERENCE: the regex match of a dollar sign followed by a
letter at the start of the string. -/
def looksLikeReference (s : String) : Bool :=
  match s.data with
  | c1 :: c2 :: _ => c1 = '$' && isAsciiLetter c2
  | _ => false

/-- The raise condition of ReferenceResolver._validate_reference_format:
looks like a reference but matches none of the four valid patterns. -/
def validateRefFormatRejects (s : String) : Bool :=
  looksLikeReference s &&
  !((manifestPatternMatch s).isSome || (choicesPatternMatch s).isSome ||
    (parametersPatternMatch s).isSome || (stepsPatternMatch s).isSome)

/-- Scanner for the embedded-reference regex tail: starting one character in,
look for a dollar sign followed by a letter, where every character crossed so
far (matched by the regex dot, which does not match a newline) is not a
newline. -/
def dollarFollowedByLetter : List Char → Bool
  | c2 :: _ => isAsciiLetter c2
  | [] => false

def embeddedScan : List Char → Bool
  | [] => false
  | c :: tl =>
    if c = '\n' then false
    else if c = '$' then dollarFollowedByLetter tl || embeddedScan tl
    else embeddedScan tl

/-- The raise condition of ReferenceResolver._check_for_embedded_references:
re.match of one or more dots, then a dollar sign, then a letter. -/
def hasEmbeddedRef (s : String) : Bool :=
  match s.data with
  | [] => false
  | c0 :: rest => if c0 = '\n' then false else embeddedScan rest

/-- Claim-side notion: the string contains a dollar sign followed by a letter
anywhere after its first character (a reference embedded after the first
character, with no condition on the characters before it). -/
def anyRefScan : List Char → Bool
  | '$' :: c :: tl => if isAsciiLetter c then true else anyRefScan (c :: tl)
  | _ :: tl => anyRefScan tl
  | [] => false

/-- Claim-side notion used to state C7 and C9: a reference of the given shape
occurs after the first character of the string. -/
def embedsRefAfterFirst (s : String) : Bool :=
  match s.data with
  | [] => false
  | _ :: rest => anyRefScan rest

/-! Levenshtein distance (ReferenceResolver._levenshtein_distance). -/

/-- Inner loop of the row DP: walk the second string and the previous row in
lockstep, carrying the last value of the current row. -/
def levRowGo (c1 : Char) : List Char → List Nat → Nat → List Nat
  | c2 :: s2t, pj :: pj1 :: prest, curj =>
    let v := min (pj1 + 1) (min (curj + 1) (pj + (if c1 = c2 then 0 else 1)))
    v :: levRowGo c1 s2t (pj1 :: prest) v
  | _, _, _ => []

/-- Outer loop of the row DP: one row per character of the first string; each
row starts with its row index, which is one more than the head of the
previous row. -/
def levFold (s2 : List Char) : List Char → List Nat → List Nat
  | [], prev => prev
  | c1 :: s1t, prev =>
    let h := prev.headD 0 + 1
    levFold s2 s1t (h :: levRowGo c1 s2 prev h)

/-- Body of _levenshtein_distance after the one-time argument swap: the empty
check, then the row DP seeded with range(len(s2)+1), returning the last entry
of the final row. -/
def levCore (s1 s2 : List Char) : Nat :=
  if s2.length = 0 then s1.length
  else (levFold s2 s1 (List.range (s2.length + 1))).getLastD 0

/-- ReferenceResolver._levenshtein_distance: swap once so the first argument
is the longer string, then run the row DP. -/
def levenshteinDistance (s1 s2 : List Char) : Nat :=
  if s1.length < s2.length then levCore s2 s1 else levCore s1 s2

/-- Textbook Levenshtein edit distance (unit costs), the notion the spec and
claim refer to; proved equal to the DP below. -/
def levSpec : List Char → List Char → Nat
  | [], ys => ys.length
  | _ :: xs, [] => xs.length + 1
  | x :: xs, y :: ys =>
    min (levSpec xs (y :: ys) + 1)
      (min (levSpec (x :: xs) ys + 1)
        (levSpec xs ys + (if x = y then 0 else 1)))
termination_by xs ys => xs.length + ys.length
decreasing_by all_goals simp_arith

/-! Typo suggestions and choice/parameter resolution (references.py). -/

/-- Structured stand-ins for the ValueError / FileNotFoundError raises of the
resolver; each constructor is one distinct raise site. -/
inductive RefErr where
  | invalidFormat (ref : String)
  | embeddedRef (value : String)
  | choicesInInput (ref : String)
  | parametersInInput (ref : String)
  | cannotResolveInput (ref : String)
  | manifestInParam (ref : String)
  | stepsInParam (ref : String)
  | unknownChoice (name : String) (suggestions : List String)
  | unknownParameter (name : String) (suggestions : List String)
  | unknownDataset (name : String)
  | datasetFileMissing (name : String) (path : String)
  | stepNotExecuted (step_id : String)
  | unknownStep (step_id : String)
  | unknownOutput (step_id : String) (output_name : String)
  | keyError (key : String)

/-- ReferenceResolver._find_close_matches with the default maximum distance
of 2: every candidate within edit distance 2, in declaration order. -/
def findCloseMatches (name : String) (candidates : List String) : List String :=
  candidates.filter (fun c => levenshteinDistance name.data c.data ≤ 2)

/-- ReferenceResolver._resolve_choice. -/
def resolveChoice (choices : List (String × JVal)) (choice_name : String) :
    Except RefErr JVal :=
  match jLookup choices choice_name with
  | some v => Except.ok v
  | none => Except.error (RefErr.unknownChoice choice_name
      (findCloseMatches choice_name (choices.map Prod.fst)))

/-- ReferenceResolver._resolve_parameter. -/
def resolveParameter (params : List (String × JVal)) (param_name : String) :
    Except RefErr JVal :=
  match jLookup params param_name with
  | some v => Except.ok v
  | none => Except.error (RefErr.unknownParameter param_name
      (findCloseMatches param_name (params.map Prod.fst)))

/-- The string case of ReferenceResolver.resolve_param_value: format
validation, embedded-reference check, then the choices/parameters patterns,
then the misuse checks, then fall through to a literal. -/
def resolveParamString (choices params : List (String × JVal)) (value : String) :
    Except RefErr JVal :=
  if validateRefFormatRejects value then Except.error (RefErr.invalidFormat value)
  else if hasEmbeddedRef value then Except.error (RefErr.embeddedRef value)
  else
    match choicesPatternMatch value with
    | some nm => resolveChoice choices nm
    | none =>
      match parametersPatternMatch value with
      | some nm => resolveParameter params nm
      | none =>
        if (manifestPatternMatch value).isSome then
          Except.error (RefErr.manifestInParam value)
        else if (stepsPatternMatch value).isSome then
          Except.error (RefErr.stepsInParam value)
        else Except.ok (JVal.str value)

theorem levSpec_nil_left (ys : List Char) : levSpec [] ys = ys.length := by
  simp only [levSpec]

theorem levSpec_cons_nil (x : Char) (xs : List Char) :
    levSpec (x :: xs) [] = xs.length + 1 := by
  simp only [levSpec]

theorem levSpec_cons_cons (x y : Char) (xs ys : List Char) :
    levSpec (x :: xs) (y :: ys)
      = min (levSpec xs (y :: ys) + 1)
          (min (levSpec (x :: xs) ys + 1)
            (levSpec xs ys + (if x = y then 0 else 1))) := by
  simp only [levSpec]

theorem levSpec_nil_right (xs : List Char) : levSpec xs [] = xs.length := by
  cases xs with
  | nil => simp only [levSpec]
  | cons x t => rw [levSpec_cons_nil]; rfl

theorem levCost_comm (x y : Char) :
    (if x = y then (0 : Nat) else 1) = (if y = x then 0 else 1) := by
  by_cases h : x = y
  · rw [if_pos h, if_pos h.symm]
  · rw [if_neg h, if_neg (fun hyx => h hyx.symm)]

theorem levSpec_comm (xs : List Char) :
    ∀ ys : List Char, levSpec xs ys = levSpec ys xs := by
  induction xs with
  | nil =>
    intro ys
    rw [levSpec_nil_left, levSpec_nil_right]
  | cons x xs ihx =>
    intro ys
    induction ys with
    | nil =>
      rw [levSpec_nil_left, levSpec_nil_right]
    | cons y ys ihy =>
      rw [levSpec_cons_cons x y xs ys, levSpec_cons_cons y x ys xs,
        ihx (y :: ys), ihy, ihx ys, levCost_comm x y]
      omega

set_option maxHeartbeats 1600000 in
theorem lev_snoc (u : List Char) :
    ∀ (w : List Char) (c d : Char),
      levSpec (u ++ [c]) (w ++ [d])
        = min (levSpec u (w ++ [d]) + 1)
            (min (levSpec (u ++ [c]) w + 1)
              (levSpec u w + (if c = d then 0 else 1))) := by
  induction u with
  | nil =>
    intro w
    induction w with
    | nil =>
      intro c d
      simp only [List.nil_append, levSpec_cons_cons]
    | cons y w2 ihw =>
      intro c d
      simp only [List.nil_append, List.cons_append] at ihw ⊢
      rw [levSpec_cons_cons c y [] (w2 ++ [d]), ihw c d,
        levSpec_cons_cons c y [] w2]
      simp only [levSpec_nil_left, List.length_append, List.length_cons,
        List.length_nil]
      by_cases h1 : c = y <;> by_cases h2 : c = d <;>
        simp only [h1, h2, if_true, if_false] <;> omega
  | cons x u2 ihu =>
    intro w
    induction w with
    | nil =>
      intro c d
      have H := ihu [] c d
      simp only [List.nil_append, List.cons_append] at H ⊢
      rw [levSpec_cons_cons x d (u2 ++ [c]) [], H,
        levSpec_cons_cons x d u2 []]
      simp only [levSpec_nil_right, levSpec_cons_nil, List.length_append,
        List.length_cons, List.length_nil]
      by_cases h1 : c = d <;> by_cases h2 : x = d <;>
        simp only [h1, h2, if_true, if_false] <;> omega
    | cons y w2 ihw =>
      intro c d
      have H1 := ihu (y :: w2) c d
      have H3 := ihu w2 c d
      have H2 := ihw c d
      simp only [List.cons_append] at H1 H2 H3 ⊢
      rw [levSpec_cons_cons x y (u2 ++ [c]) (w2 ++ [d]), H1, H2, H3,
        levSpec_cons_cons x y u2 (w2 ++ [d]),
        levSpec_cons_cons x y (u2 ++ [c]) w2,
        levSpec_cons_cons x y u2 w2]
      simp only [← min_add_add_right]
      simp only [Nat.add_assoc, Nat.add_comm, Nat.add_left_comm]
      simp only [min_assoc]
      simp only [min_comm, min_left_comm, min_assoc]

/-- The row of Levenshtein distances from u to each prefix of w ++ t that
extends w: entry j is the distance from u to w ++ t.take j. -/
def specRow (u : List Char) (w : List Char) : List Char → List Nat
  | [] => [levSpec u w]
  | c2 :: t2 => levSpec u w :: specRow u (w ++ [c2]) t2

theorem specRow_eq_cons (u w : List Char) (t : List Char) :
    specRow u w t = levSpec u w :: (specRow u w t).tail := by
  cases t <;> simp [specRow]

theorem levRowGo_spec (c1 : Char) (u : List Char) :
    ∀ (t w : List Char),
      levRowGo c1 t (specRow u w t) (levSpec (u ++ [c1]) w)
        = (specRow (u ++ [c1]) w t).tail := by
  intro t
  induction t with
  | nil =>
    intro w
    simp [specRow, levRowGo]
  | cons c2 t2 ih =>
    intro w
    rw [show specRow u w (c2 :: t2)
        = levSpec u w :: specRow u (w ++ [c2]) t2 from rfl,
      specRow_eq_cons u (w ++ [c2]) t2]
    show (min (levSpec u (w ++ [c2]) + 1)
        (min (levSpec (u ++ [c1]) w + 1)
          (levSpec u w + (if c1 = c2 then 0 else 1))))
      :: levRowGo c1 t2
          (levSpec u (w ++ [c2]) :: (specRow u (w ++ [c2]) t2).tail)
          (min (levSpec u (w ++ [c2]) + 1)
            (min (levSpec (u ++ [c1]) w + 1)
              (levSpec u w + (if c1 = c2 then 0 else 1))))
      = (specRow (u ++ [c1]) w (c2 :: t2)).tail
    rw [← lev_snoc u w c1 c2, ← specRow_eq_cons u (w ++ [c2]) t2, ih (w ++ [c2])]
    rw [show (specRow (u ++ [c1]) w (c2 :: t2)).tail
        = specRow (u ++ [c1]) (w ++ [c2]) t2 from rfl,
      specRow_eq_cons (u ++ [c1]) (w ++ [c2]) t2]
    rfl

theorem levFold_spec (s2 : List Char) :
    ∀ (s1rest u : List Char),
      levFold s2 s1rest (specRow u [] s2) = specRow (u ++ s1rest) [] s2 := by
  intro s1rest
  induction s1rest with
  | nil =>
    intro u
    simp [levFold]
  | cons c1 s1t ih =>
    intro u
    show levFold s2 s1t
        (((specRow u [] s2).headD 0 + 1)
          :: levRowGo c1 s2 (specRow u [] s2) ((specRow u [] s2).headD 0 + 1))
      = _
    have hhead : (specRow u [] s2).headD 0 = levSpec u [] := by
      rw [specRow_eq_cons]
      rfl
    have hh : (specRow u [] s2).headD 0 + 1 = levSpec (u ++ [c1]) [] := by
      rw [hhead, levSpec_nil_right, levSpec_nil_right, List.length_append,
        List.length_singleton]
    rw [hh, levRowGo_spec c1 u s2 [], ← specRow_eq_cons (u ++ [c1]) [] s2,
      ih (u ++ [c1]), List.append_assoc]
    rfl

theorem specRow_nil_left (t : List Char) :
    ∀ w : List Char, specRow [] w t = List.range' w.length (t.length + 1) := by
  induction t with
  | nil =>
    intro w
    simp [specRow, levSpec_nil_left, List.range']
  | cons c2 t2 ih =>
    intro w
    rw [show specRow [] w (c2 :: t2)
        = levSpec [] w :: specRow [] (w ++ [c2]) t2 from rfl,
      ih (w ++ [c2]), levSpec_nil_left]
    rw [show (w ++ [c2]).length = w.length + 1 by simp]
    rfl

theorem specRow_getLastD (u : List Char) :
    ∀ (t w : List Char), (specRow u w t).getLastD 0 = levSpec u (w ++ t) := by
  intro t
  induction t with
  | nil =>
    intro w
    simp [specRow]
  | cons c2 t2 ih =>
    intro w
    rw [show specRow u w (c2 :: t2)
        = levSpec u w :: specRow u (w ++ [c2]) t2 from rfl,
      List.getLastD_cons, specRow_eq_cons u (w ++ [c2]) t2,
      List.getLastD_cons]
    have h2 := ih (w ++ [c2])
    rw [specRow_eq_cons u (w ++ [c2]) t2, List.getLastD_cons] at h2
    rw [h2]
    simp

theorem levCore_spec (s1 s2 : List Char) : levCore s1 s2 = levSpec s1 s2 := by
  unfold levCore
  by_cases h : s2.length = 0
  · rw [if_pos h, List.length_eq_zero.mp h, levSpec_nil_right]
  · rw [if_neg h]
    rw [show List.range (s2.length + 1) = specRow [] [] s2 by
      rw [specRow_nil_left s2 [], List.length_nil, List.range_eq_range']]
    rw [levFold_spec s2 s1 [], List.nil_append, specRow_getLastD s1 s2 [],
      List.nil_append]

theorem levenshteinDistance_eq_levSpec (s1 s2 : List Char) :
    levenshteinDistance s1 s2 = levSpec s1 s2 := by
  unfold levenshteinDistance
  by_cases h : s1.length < s2.length
  · rw [if_pos h, levCore_spec, levSpec_comm]
  · rw [if_neg h, levCore_spec]

theorem dropLit_some : ∀ (lit cs rest : List Char),
    dropLit lit cs = some rest → cs = lit ++ rest := by
  intro lit
  induction lit with
  | nil =>
    intro cs rest h
    simp [dropLit] at h
    simp [h]
  | cons l ls ih =>
    intro cs rest h
    cases cs with
    | nil => simp [dropLit] at h
    | cons c cs2 =>
      simp only [dropLit] at h
      by_cases hc : c = l
      · rw [if_pos hc] at h
        rw [hc, List.cons_append, ih cs2 rest h]
      · rw [if_neg hc] at h
        exact absurd h (by simp)

theorem embeddedScan_false_of_no_dollar :
    ∀ cs : List Char, (∀ x ∈ cs, x ≠ '$') → embeddedScan cs = false := by
  intro cs
  induction cs with
  | nil => intro _; rfl
  | cons c tl ih =>
    intro h
    have hc : c ≠ '$' := h c (List.mem_cons_self c tl)
    show (if c = '\n' then false
      else if c = '$' then dollarFollowedByLetter tl || embeddedScan tl
      else embeddedScan tl) = false
    by_cases hn : c = '\n'
    · rw [if_pos hn]
    · rw [if_neg hn, if_neg hc]
      exact ih (fun x hx => h x (List.mem_cons_of_mem c hx))

theorem embeddedScan_of_split :
    ∀ (pre : List Char) (c : Char) (suf : List Char),
      (∀ x ∈ pre, x ≠ '\n') → isAsciiLetter c = true →
      embeddedScan (pre ++ '$' :: c :: suf) = true := by
  intro pre
  induction pre with
  | nil =>
    intro c suf _ hc
    simp [embeddedScan, dollarFollowedByLetter, hc]
  | cons p pre2 ih =>
    intro c suf hclean hc
    have hp : p ≠ '\n' := hclean p (List.mem_cons_self p pre2)
    have hrest : embeddedScan (pre2 ++ '$' :: c :: suf) = true :=
      ih c suf (fun x hx => hclean x (List.mem_cons_of_mem p hx)) hc
    rw [List.cons_append]
    simp only [embeddedScan, if_neg hp]
    by_cases hd : p = '$'
    · rw [if_pos hd, hrest, Bool.or_true]
    · rw [if_neg hd]
      exact hrest

theorem hasEmbeddedRef_of_split (s : String) (pre suf : List Char) (c : Char)
    (hs : s.data = pre ++ '$' :: c :: suf) (hne : pre ≠ [])
    (hclean : ∀ x ∈ pre, x ≠ '\n') (hc : isAsciiLetter c = true) :
    hasEmbeddedRef s = true := by
  unfold hasEmbeddedRef
  cases pre with
  | nil => exact absurd rfl hne
  | cons p pre2 =>
    rw [hs, List.cons_append]
    have hp : p ≠ '\n' := hclean p (List.mem_cons_self p pre2)
    show (if p = '\n' then false
      else embeddedScan (pre2 ++ '$' :: c :: suf)) = true
    rw [if_neg hp]
    exact embeddedScan_of_split pre2 c suf
      (fun x hx => hclean x (List.mem_cons_of_mem p hx)) hc

theorem validateRefFormatRejects_false_of_choices (s : String) (nm : String)
    (h : choicesPatternMatch s = some nm) :
    validateRefFormatRejects s = false := by
  unfold validateRefFormatRejects
  rw [h]
  simp only [Option.isSome_some, Bool.or_true, Bool.true_or, Bool.not_true,
    Bool.and_false]

theorem hasEmbeddedRef_false_of_choices (s : String) (nm : String)
    (h : choicesPatternMatch s = some nm) :
    hasEmbeddedRef s = false := by
  unfold choicesPatternMatch at h
  cases hd : dropLit "$choices.".data s.data with
  | none => rw [hd] at h; exact absurd h (by simp)
  | some rest =>
    rw [hd] at h
    replace h : matchIdentAll rest = some nm := h
    have hs : s.data = "$choices.".data ++ rest := dropLit_some _ _ _ hd
    have hno : ∀ x ∈ rest, x ≠ '$' := by
      unfold matchIdentAll at h
      cases rest with
      | nil => exact absurd h (by simp)
      | cons c rest2 =>
        by_cases hok : isIdentStart c && rest2.all isIdentChar
        · intro x hx
          simp only [Bool.and_eq_true] at hok
          have hcs : isIdentStart c = true := hok.1
          have hall : ∀ y ∈ rest2, isIdentChar y = true := by
            intro y hy
            exact List.all_eq_true.mp hok.2 y hy
          rcases List.mem_cons.mp hx with hxc | hx2
          · subst hxc
            intro hdol
            rw [hdol] at hcs
            exact absurd hcs (by decide)
          · intro hdol
            have hxi := hall x hx2
            rw [hdol] at hxi
            exact absurd hxi (by decide)
        · replace h : (if (isIdentStart c && rest2.all isIdentChar) = true
              then some (String.mk (c :: rest2)) else none) = some nm := h
          rw [if_neg hok] at h
          exact absurd h (by simp)
    unfold hasEmbeddedRef
    rw [hs]
    show (if '$' = '\n' then false
      else embeddedScan ("choices.".data ++ rest)) = false
    rw [if_neg (by decide)]
    apply embeddedScan_false_of_no_dollar
    intro x hx
    rcases List.mem_append.mp hx with hx1 | hx2
    · have hlit : ∀ y ∈ "choices.".data, y ≠ '$' := by decide
      exact hlit x hx1
    · exact hno x hx2

/-- Claim C7 counterexample: the string that embeds a choices reference right
after a leading newline is not rejected by the resolver: the embedded-pattern
regex dot does not match a newline, so resolve_param_value returns the string
unchanged as a literal, although it embeds a reference after its first
character. -/
theorem claim_C7_counterexample :
    embedsRefAfterFirst "\n$choices.x" = true ∧
    resolveParamString [("x", JVal.null)] [] "\n$choices.x"
      = Except.ok (JVal.str "\n$choices.x") := by
  exact ⟨rfl, rfl⟩

/-- Claim C7 (amended): the Reference Resolver rejects every string that
embeds a reference after its first character provided no character before the
embedded reference is a newline (the regex dot does not match newlines); it
rejects with the invalid-format error every string beginning with a dollar
sign and a letter that matches none of the four reference patterns; and for a
well-formed choices reference whose name is not a declared choice, the raised
error carries as suggestions exactly the declared choice names within
Levenshtein edit distance 2 of the name, in declaration order. -/
theorem claim_C7_reference_rejection :
    (∀ (choices params : List (String × JVal)) (s : String)
        (pre suf : List Char) (c : Char),
        s.data = pre ++ '$' :: c :: suf → pre ≠ [] →
        (∀ x ∈ pre, x ≠ '\n') → isAsciiLetter c = true →
        ∃ e, resolveParamString choices params s = Except.error e) ∧
    (∀ (choices params : List (String × JVal)) (s : String),
        looksLikeReference s = true →
        manifestPatternMatch s = none → choicesPatternMatch s = none →
        parametersPatternMatch s = none → stepsPatternMatch s = none →
        resolveParamString choices params s
          = Except.error (RefErr.invalidFormat s)) ∧
    (∀ (choices params : List (String × JVal)) (s x : String),
        choicesPatternMatch s = some x → jLookup choices x = none →
        resolveParamString choices params s
          = Except.error (RefErr.unknownChoice x
              ((choices.map Prod.fst).filter
                (fun cand => levSpec x.data cand.data ≤ 2)))) := by
  refine ⟨?_, ?_, ?_⟩
  · intro choices params s pre suf c hsplit hne hclean hc
    have hemb : hasEmbeddedRef s = true :=
      hasEmbeddedRef_of_split s pre suf c hsplit hne hclean hc
    unfold resolveParamString
    by_cases hv : validateRefFormatRejects s
    · rw [if_pos hv]
      exact ⟨RefErr.invalidFormat s, rfl⟩
    · rw [if_neg hv, if_pos hemb]
      exact ⟨RefErr.embeddedRef s, rfl⟩
  · intro choices params s hl hm hc hp hs
    have hv : validateRefFormatRejects s = true := by
      unfold validateRefFormatRejects
      rw [hl, hm, hc, hp, hs]
      rfl
    unfold resolveParamString
    rw [if_pos hv]
  · intro choices params s x hpat hlook
    have hv := validateRefFormatRejects_false_of_choices s x hpat
    have he := hasEmbeddedRef_false_of_choices s x hpat
    unfold resolveParamString
    rw [if_neg (by rw [hv]; simp), if_neg (by rw [he]; simp), hpat]
    show resolveChoice choices x = _
    unfold resolveChoice
    rw [hlook]
    unfold findCloseMatches
    simp only [levenshteinDistance_eq_levSpec]

/-! Dependency extraction (canopy/orchestrator/dependencies.py). -/

/-- Python set.add: append only when absent. -/
def setInsert (s : List String) (x : String) : List String :=
  if x ∈ s then s else s ++ [x]

/-- Python set.update: insert every element of the second set. -/
def setUnion (s t : List String) : List String :=
  t.foldl setInsert s

mutual

/-- DependencyResolver._extract_step_references: recursively walk a value;
on a string, take group 1 of STEPS_PATTERN.match (anchored at the start of
the string); on lists and dicts, union the recursive results; other scalars
contribute nothing. -/
def extractStepReferences : JVal → List String
  | JVal.null => []
  | JVal.bool _ => []
  | JVal.num _ => []
  | JVal.str s =>
    (match stepsPatternAtStart s with
     | some step_id => [step_id]
     | none => [])
  | JVal.arr xs => extractStepRefsList xs
  | JVal.obj fs => extractStepRefsFields fs

def extractStepRefsList : List JVal → List String
  | [] => []
  | v :: vs => setUnion (extractStepReferences v) (extractStepRefsList vs)

def extractStepRefsFields : List (String × JVal) → List String
  | [] => []
  | p :: fs => setUnion (extractStepReferences p.2) (extractStepRefsFields fs)

end

/-- Claim-side notion for C9: the first steps-reference occurring at any
position inside the character list (group 1 of an occurrence of the
STEPS_PATTERN form anywhere in the string). -/
def stepsRefAt : List Char → Option String
  | [] => none
  | c :: tl =>
    match stepsPatternAtStart (String.mk (c :: tl)) with
    | some i => some i
    | none => stepsRefAt tl

theorem mem_setInsert_of_mem {a : String} {s : List String} (x : String)
    (h : a ∈ s) : a ∈ setInsert s x := by
  unfold setInsert
  by_cases hx : x ∈ s
  · rw [if_pos hx]; exact h
  · rw [if_neg hx]; exact List.mem_append_left _ h

theorem mem_setUnion_left {a : String} {s : List String} (t : List String)
    (h : a ∈ s) : a ∈ setUnion s t := by
  induction t generalizing s with
  | nil => exact h
  | cons x t2 ih => exact ih (mem_setInsert_of_mem x h)

theorem mem_setInsert_self (s : List String) (x : String) : x ∈ setInsert s x := by
  unfold setInsert
  by_cases hx : x ∈ s
  · rw [if_pos hx]; exact hx
  · rw [if_neg hx]; exact List.mem_append_right _ (List.mem_singleton.mpr rfl)

theorem mem_setUnion_right {a : String} (s : List String) {t : List String}
    (h : a ∈ t) : a ∈ setUnion s t := by
  induction t generalizing s with
  | nil => exact absurd h (List.not_mem_nil a)
  | cons x t2 ih =>
    rcases List.mem_cons.mp h with rfl | h2
    · exact mem_setUnion_left t2 (mem_setInsert_self s a)
    · exact ih (setInsert s x) h2

/-- A string occurring as a leaf somewhere inside a nested value. -/
inductive StrLeaf : JVal → String → Prop where
  | str (s : String) : StrLeaf (JVal.str s) s
  | arr {v : JVal} {s : String} {xs : List JVal} :
      v ∈ xs → StrLeaf v s → StrLeaf (JVal.arr xs) s
  | obj {v : JVal} {s : String} {fs : List (String × JVal)} (k : String) :
      (k, v) ∈ fs → StrLeaf v s → StrLeaf (JVal.obj fs) s

theorem extractStepRefsList_mem {a : String} {v : JVal} :
    ∀ {xs : List JVal}, v ∈ xs → a ∈ extractStepReferences v →
      a ∈ extractStepRefsList xs := by
  intro xs
  induction xs with
  | nil => intro h; exact absurd h (List.not_mem_nil v)
  | cons w ws ih =>
    intro hmem ha
    rcases List.mem_cons.mp hmem with rfl | h2
    · exact mem_setUnion_left _ ha
    · exact mem_setUnion_right _ (ih h2 ha)

theorem extractStepRefsFields_mem {a : String} {v : JVal} {k : String} :
    ∀ {fs : List (String × JVal)}, (k, v) ∈ fs → a ∈ extractStepReferences v →
      a ∈ extractStepRefsFields fs := by
  intro fs
  induction fs with
  | nil => intro h; exact absurd h (List.not_mem_nil (k, v))
  | cons p ps ih =>
    intro hmem ha
    rcases List.mem_cons.mp hmem with hp | h2
    · rw [← hp]
      exact mem_setUnion_left _ ha
    · exact mem_setUnion_right _ (ih h2 ha)

/-- Claim C9 counterexample: _extract_step_references uses re.match, which
anchors STEPS_PATTERN at the start of the string, so a steps reference
occurring one character into a string value is not collected: the value
embeds a reference to step a, yet the extracted reference set is empty. -/
theorem claim_C9_counterexample :
    stepsRefAt "x$steps.a.b".data = some "a" ∧
    extractStepReferences (JVal.str "x$steps.a.b") = [] := by
  exact ⟨rfl, rfl⟩

/-- Claim C9 (amended): for every value (string, list, or map, arbitrarily
nested), the dependency extractor collects every step id referenced via the
steps form at the START of a string found anywhere in that value: if a string
leaf of the value begins with a steps reference to a step id, that id is in
the extracted reference set. References occurring later inside a string are
not collected (see the counterexample). -/
theorem claim_C9_extract_references (v : JVal) (s : String) (step_id : String)
    (hleaf : StrLeaf v s) (hmatch : stepsPatternAtStart s = some step_id) :
    step_id ∈ extractStepReferences v := by
  induction hleaf with
  | str s =>
    show step_id ∈ (match stepsPatternAtStart s with
      | some i => [i]
      | none => [])
    rw [hmatch]
    exact List.mem_singleton.mpr rfl
  | arr hmem _ ih => exact extractStepRefsList_mem hmem (ih hmatch)
  | obj k hmem _ ih => exact extractStepRefsFields_mem hmem (ih hmatch)

theorem claim_C9_extract_references_witness :
    "prev" ∈ extractStepReferences
      (JVal.obj [("x", JVal.arr [JVal.str "$steps.prev.out"])]) :=
  claim_C9_extract_references
    (JVal.obj [("x", JVal.arr [JVal.str "$steps.prev.out"])])
    "$steps.prev.out" "prev"
    (StrLeaf.obj "x" (List.mem_singleton.mpr rfl)
      (StrLeaf.arr (List.mem_singleton.mpr rfl)
        (StrLeaf.str "$steps.prev.out"))) rfl

/-! Manifest parsing and manifest reference resolution
(orchestrator.py parse_manifest, references.py _resolve_manifest_ref). -/

/-- Generic association-list lookup with first-match semantics (Python dict
access for non-JVal payloads). -/
def alistLookup {α : Type} (d : List (String × α)) (k : String) : Option α :=
  (d.find? (fun p => p.1 = k)).map (fun p => p.2)

/-- orchestrator.py ManifestDataset. -/
structure ManifestDataset where
  name : String
  path : String
  semantic_type : String
  format : String
deriving DecidableEq

/-- orchestrator.py Manifest (data_dir as a plain path string). -/
structure Manifest where
  city_name : String
  city_id : String
  datasets : List (String × ManifestDataset)
  data_dir : String

/-- One dataset entry of a raw manifest document, with the optional fields
parse_manifest reads via .get. -/
structure RawDataset where
  available : Bool := true
  cache_path : Option String := none
  semantic_type : Option String := none
  format : Option String := none
deriving DecidableEq

/-- A raw manifest document (city block plus dataset entries in order). -/
structure RawManifest where
  city_name : String
  city_id : String
  datasets : List (String × RawDataset)

/-- The ManifestDataset parse_manifest builds for an available entry:
cache.path defaulting to .data/(name).geojson, semantic_type defaulting to
the dataset name, format defaulting to geojson. -/
def parsedDataset (name : String) (rd : RawDataset) : ManifestDataset :=
  ManifestDataset.mk name
    (rd.cache_path.getD (".data/" ++ name ++ ".geojson"))
    (rd.semantic_type.getD name)
    (rd.format.getD "geojson")

/-- orchestrator.py parse_manifest: keep only datasets whose available flag
(defaulting to true) is set; data_dir is the directory of the manifest file. -/
def parseDatasetEntry (p : String × RawDataset) : Option (String × ManifestDataset) :=
  if p.2.available then some (p.1, parsedDataset p.1 p.2) else none

def parseManifest (data_dir : String) (raw : RawManifest) : Manifest :=
  { city_name := raw.city_name, city_id := raw.city_id, data_dir := data_dir,
    datasets := raw.datasets.filterMap parseDatasetEntry }

/-- references.py _resolve_manifest_ref, with the filesystem as an oracle
from paths to existence and the path join written as string concatenation:
unknown dataset is one error, declared-but-missing file a distinct one. -/
def resolveManifestRef (fs : String → Bool) (manifest : Manifest)
    (dataset_name : String) : Except RefErr (String × String) :=
  match alistLookup manifest.datasets dataset_name with
  | none => Except.error (RefErr.unknownDataset dataset_name)
  | some dataset =>
    let path := manifest.data_dir ++ "/" ++ dataset.path
    if fs path then Except.ok (path, dataset.semantic_type)
    else Except.error (RefErr.datasetFileMissing dataset_name path)

theorem alistLookup_eq_none_of_not_mem {α : Type} (d : List (String × α))
    (k : String) (h : k ∉ d.map Prod.fst) : alistLookup d k = none := by
  induction d with
  | nil => rfl
  | cons p ps ih =>
    have hk : p.1 ≠ k := by
      intro he
      exact h (by simp [← he])
    unfold alistLookup
    rw [List.find?_cons_of_neg _ (by simp [hk])]
    exact ih (fun hm => h (by simp at hm ⊢; exact Or.inr hm))

theorem parseDatasetEntry_pos (p : String × RawDataset)
    (hav : p.2.available = true) :
    parseDatasetEntry p = some (p.1, parsedDataset p.1 p.2) := by
  unfold parseDatasetEntry
  rw [if_pos hav]

theorem parseDatasetEntry_neg (p : String × RawDataset)
    (hav : ¬p.2.available = true) : parseDatasetEntry p = none := by
  unfold parseDatasetEntry
  rw [if_neg hav]

theorem filterMapDatasets_lookup (name : String) :
    ∀ ds : List (String × RawDataset), (ds.map Prod.fst).Nodup →
      alistLookup (ds.filterMap parseDatasetEntry) name
        = (alistLookup ds name).bind
            (fun rd => if rd.available then some (parsedDataset name rd) else none) := by
  intro ds
  induction ds with
  | nil => intro _; rfl
  | cons p ps ih =>
    intro hnodup
    have hnd2 : (ps.map Prod.fst).Nodup := (List.nodup_cons.mp (by simpa using hnodup)).2
    have hnotmem : p.1 ∉ ps.map Prod.fst := (List.nodup_cons.mp (by simpa using hnodup)).1
    by_cases hname : p.1 = name
    · subst hname
      by_cases hav : p.2.available
      · rw [List.filterMap_cons_some (parseDatasetEntry_pos p hav)]
        unfold alistLookup
        rw [List.find?_cons_of_pos _ (by simp),
          List.find?_cons_of_pos _ (by simp)]
        simp [hav]
      · rw [List.filterMap_cons_none (parseDatasetEntry_neg p hav)]
        have h2 : alistLookup (ps.filterMap parseDatasetEntry) p.1 = none := by
          apply alistLookup_eq_none_of_not_mem
          intro hm
          apply hnotmem
          rcases List.mem_map.mp hm with ⟨q, hq, hqe⟩
          rcases List.mem_filterMap.mp hq with ⟨r, hr, hre⟩
          by_cases hrav : r.2.available
          · rw [parseDatasetEntry_pos r hrav] at hre
            apply List.mem_map.mpr
            refine ⟨r, hr, ?_⟩
            have hpair : (r.1, parsedDataset r.1 r.2) = q := Option.some.inj hre
            rw [← hqe, ← hpair]
          · rw [parseDatasetEntry_neg r hrav] at hre
            exact absurd hre (by simp)
        rw [h2]
        unfold alistLookup
        rw [List.find?_cons_of_pos _ (by simp)]
        simp [hav]
    · by_cases hav : p.2.available
      · rw [List.filterMap_cons_some (parseDatasetEntry_pos p hav)]
        unfold alistLookup
        rw [List.find?_cons_of_neg _ (by simp [hname]),
          List.find?_cons_of_neg _ (by simp [hname])]
        exact ih hnd2
      · rw [List.filterMap_cons_none (parseDatasetEntry_neg p hav)]
        unfold alistLookup
        rw [List.find?_cons_of_neg _ (by simp [hname])]
        exact ih hnd2

theorem parseManifest_lookup (data_dir : String) (raw : RawManifest)
    (name : String) (hnodup : (raw.datasets.map Prod.fst).Nodup) :
    alistLookup (parseManifest data_dir raw).datasets name
      = (alistLookup raw.datasets name).bind
          (fun rd => if rd.available then some (parsedDataset name rd) else none) :=
  filterMapDatasets_lookup name raw.datasets hnodup

/-- Claim C6: resolving a manifest input reference on a parsed manifest
succeeds, returning the dataset path (data_dir joined with the cache path)
and its semantic type, exactly when the dataset is declared, marked
available, and its backing file exists at resolution time; a declared,
available dataset whose file is missing fails with the distinct
file-not-found error, while an undeclared or unavailable name fails with the
unknown-dataset error. -/
theorem claim_C6_manifest_resolution (raw : RawManifest) (data_dir : String)
    (fs : String → Bool) (name : String)
    (hnodup : (raw.datasets.map Prod.fst).Nodup) :
    (∀ rd, alistLookup raw.datasets name = some rd → rd.available = true →
      fs (data_dir ++ "/" ++ (parsedDataset name rd).path) = true →
      resolveManifestRef fs (parseManifest data_dir raw) name
        = Except.ok (data_dir ++ "/" ++ (parsedDataset name rd).path,
            (parsedDataset name rd).semantic_type)) ∧
    (∀ rd, alistLookup raw.datasets name = some rd → rd.available = true →
      fs (data_dir ++ "/" ++ (parsedDataset name rd).path) = false →
      resolveManifestRef fs (parseManifest data_dir raw) name
        = Except.error (RefErr.datasetFileMissing name
            (data_dir ++ "/" ++ (parsedDataset name rd).path))) ∧
    (alistLookup raw.datasets name = none →
      resolveManifestRef fs (parseManifest data_dir raw) name
        = Except.error (RefErr.unknownDataset name)) ∧
    (∀ rd, alistLookup raw.datasets name = some rd → rd.available = false →
      resolveManifestRef fs (parseManifest data_dir raw) name
        = Except.error (RefErr.unknownDataset name)) ∧
    (∀ res, resolveManifestRef fs (parseManifest data_dir raw) name
        = Except.ok res →
      ∃ rd, alistLookup raw.datasets name = some rd ∧ rd.available = true ∧
        fs (data_dir ++ "/" ++ (parsedDataset name rd).path) = true ∧
        res = (data_dir ++ "/" ++ (parsedDataset name rd).path,
            (parsedDataset name rd).semantic_type)) ∧
    (∀ p, RefErr.unknownDataset name ≠ RefErr.datasetFileMissing name p) := by
  have hlk := parseManifest_lookup data_dir raw name hnodup
  have hdir : (parseManifest data_dir raw).data_dir = data_dir := rfl
  refine ⟨?_, ?_, ?_, ?_, ?_, ?_⟩
  · intro rd hfound hav hfs
    unfold resolveManifestRef
    rw [hlk, hfound, Option.some_bind, if_pos hav]
    show (if fs (data_dir ++ "/" ++ (parsedDataset name rd).path) then _ else _) = _
    rw [if_pos hfs]
    rfl
  · intro rd hfound hav hfs
    unfold resolveManifestRef
    rw [hlk, hfound, Option.some_bind, if_pos hav]
    show (if fs (data_dir ++ "/" ++ (parsedDataset name rd).path) then _ else _) = _
    rw [if_neg (by rw [hfs]; simp)]
    rfl
  · intro hnone
    unfold resolveManifestRef
    rw [hlk, hnone, Option.none_bind]
  · intro rd hfound hav
    unfold resolveManifestRef
    rw [hlk, hfound, Option.some_bind, if_neg (by rw [hav]; simp)]
  · intro res hok
    unfold resolveManifestRef at hok
    rw [hlk] at hok
    cases hfound : alistLookup raw.datasets name with
    | none =>
      rw [hfound, Option.none_bind] at hok
      exact absurd hok (by simp)
    | some rd =>
      rw [hfound, Option.some_bind] at hok
      by_cases hav : rd.available = true
      · rw [if_pos hav] at hok
        replace hok : (if fs (data_dir ++ "/" ++ (parsedDataset name rd).path)
            then (Except.ok (data_dir ++ "/" ++ (parsedDataset name rd).path,
                (parsedDataset name rd).semantic_type) : Except RefErr (String × String))
            else Except.error (RefErr.datasetFileMissing name
              (data_dir ++ "/" ++ (parsedDataset name rd).path)))
            = Except.ok res := hok
        by_cases hfs : fs (data_dir ++ "/" ++ (parsedDataset name rd).path) = true
        · rw [if_pos hfs] at hok
          exact ⟨rd, rfl, hav, hfs, (Except.ok.inj hok).symm⟩
        · rw [if_neg hfs] at hok
          exact absurd hok (by simp)
      · rw [if_neg hav] at hok
        exact absurd hok (by simp)
  · intro p h
    exact RefErr.noConfusion h

/-- A concrete raw manifest: parks available with an explicit cache path,
trees declared but marked unavailable. -/
def rawManifestEx : RawManifest :=
  { city_name := "TestCity", city_id := "tc",
    datasets :=
      [("parks", { available := true, cache_path := some "parks.geojson",
                   semantic_type := some "park_boundaries",
                   format := some "geojson" }),
       ("trees", { available := false })] }

theorem claim_C6_manifest_resolution_witness :
    resolveManifestRef (fun p => p == "md/parks.geojson")
        (parseManifest "md" rawManifestEx) "parks"
      = Except.ok ("md/parks.geojson", "park_boundaries") ∧
    resolveManifestRef (fun _ => false)
        (parseManifest "md" rawManifestEx) "parks"
      = Except.error (RefErr.datasetFileMissing "parks" "md/parks.geojson") ∧
    resolveManifestRef (fun _ => true)
        (parseManifest "md" rawManifestEx) "trees"
      = Except.error (RefErr.unknownDataset "trees") ∧
    resolveManifestRef (fun _ => true)
        (parseManifest "md" rawManifestEx) "lakes"
      = Except.error (RefErr.unknownDataset "lakes") := by
  refine ⟨?_, ?_, ?_, ?_⟩
  · exact (claim_C6_manifest_resolution rawManifestEx "md"
      (fun p => p == "md/parks.geojson") "parks" (by decide)).1
      { available := true, cache_path := some "parks.geojson",
        semantic_type := some "park_boundaries", format := some "geojson" }
      rfl rfl rfl
  · exact (claim_C6_manifest_resolution rawManifestEx "md"
      (fun _ => false) "parks" (by decide)).2.1
      { available := true, cache_path := some "parks.geojson",
        semantic_type := some "park_boundaries", format := some "geojson" }
      rfl rfl rfl
  · exact (claim_C6_manifest_resolution rawManifestEx "md"
      (fun _ => true) "trees" (by decide)).2.2.2.1
      { available := false } rfl rfl
  · exact (claim_C6_manifest_resolution rawManifestEx "md"
      (fun _ => true) "lakes" (by decide)).2.2.1 rfl

/-! Step output registration and step reference resolution
(references.py register_step_output, _resolve_step_ref). -/

/-- Python dict assignment for an arbitrary payload: replace in place when
the key exists, append otherwise. -/
def alistSet {α : Type} (d : List (String × α)) (k : String) (v : α) :
    List (String × α) :=
  if (d.find? (fun p => p.1 = k)).isSome then
    d.map (fun p => if p.1 = k then (k, v) else p)
  else d ++ [(k, v)]

/-- Update the payload of an existing key in place. -/
def alistModify {α : Type} (d : List (String × α)) (k : String) (f : α → α) :
    List (String × α) :=
  d.map (fun p => if p.1 = k then (k, f p.2) else p)

/-- The two parallel tables the resolver populates as steps complete. -/
structure StepOutputTable where
  step_outputs : List (String × List (String × String))
  step_envelopes : List (String × List (String × Envelope))

/-- ReferenceResolver.register_step_output: create both per-step dicts when
the step id is new, then set the output path and envelope. -/
def registerStepOutput (st : StepOutputTable) (step_id output_name path : String)
    (envelope : Envelope) : StepOutputTable :=
  if (alistLookup st.step_outputs step_id).isSome then
    { step_outputs := alistModify st.step_outputs step_id
        (fun m => alistSet m output_name path),
      step_envelopes := alistModify st.step_envelopes step_id
        (fun m => alistSet m output_name envelope) }
  else
    { step_outputs := alistModify (alistSet st.step_outputs step_id []) step_id
        (fun m => alistSet m output_name path),
      step_envelopes := alistModify (alistSet st.step_envelopes step_id []) step_id
        (fun m => alistSet m output_name envelope) }

/-- ReferenceResolver._resolve_step_ref: a step id absent from the output
table is a not-executed-yet error when it is declared in the experiment and
an unknown-step error otherwise; a registered step with the named output
returns the stored path, the envelope metadata semantic type, and the
envelope itself. Dict accesses the Python code performs without membership
checks appear as keyError. -/
def resolveStepRef (experiment_step_ids : List String) (st : StepOutputTable)
    (step_id output_name : String) : Except RefErr (String × String × Envelope) :=
  match alistLookup st.step_outputs step_id with
  | none =>
    if step_id ∈ experiment_step_ids then
      Except.error (RefErr.stepNotExecuted step_id)
    else Except.error (RefErr.unknownStep step_id)
  | some outputs =>
    match alistLookup outputs output_name with
    | none => Except.error (RefErr.unknownOutput step_id output_name)
    | some path =>
      match alistLookup st.step_envelopes step_id with
      | none => Except.error (RefErr.keyError step_id)
      | some envs =>
        match alistLookup envs output_name with
        | none => Except.error (RefErr.keyError output_name)
        | some envelope =>
          match jLookup envelope.metadata "semantic_type" with
          | none => Except.error (RefErr.keyError "semantic_type")
          | some (JVal.str sem) => Except.ok (path, sem, envelope)
          | some _ => Except.error (RefErr.keyError "semantic_type")

theorem find_setmap_self {α : Type} (k : String) (v : α) :
    ∀ d : List (String × α), (d.find? (fun p => p.1 = k)).isSome →
      ((d.map (fun p => if p.1 = k then (k, v) else p)).find?
        (fun p => p.1 = k)) = some (k, v) := by
  intro d
  induction d with
  | nil => intro h; exact absurd h (by simp)
  | cons p ps ih =>
    intro h
    by_cases hp : p.1 = k
    · rw [List.map_cons, if_pos hp, List.find?_cons_of_pos _ (by simp)]
    · rw [List.map_cons, if_neg hp, List.find?_cons_of_neg _ (by simp [hp])]
      apply ih
      rw [List.find?_cons_of_neg _ (by simp [hp])] at h
      exact h

theorem alistSet_lookup_self {α : Type} (d : List (String × α)) (k : String)
    (v : α) : alistLookup (alistSet d k v) k = some v := by
  unfold alistSet
  by_cases hs : (d.find? (fun p => p.1 = k)).isSome
  · rw [if_pos hs]
    unfold alistLookup
    rw [find_setmap_self k v d hs]
    rfl
  · rw [if_neg hs]
    unfold alistLookup
    induction d with
    | nil => simp
    | cons p ps ih =>
      have hp : ¬p.1 = k := by
        intro he
        exact hs (by rw [List.find?_cons_of_pos _ (by simp [he])]; rfl)
      rw [List.cons_append, List.find?_cons_of_neg _ (by simp [hp])]
      apply ih
      intro h2
      apply hs
      rw [List.find?_cons_of_neg _ (by simp [hp])]
      exact h2

theorem alistModify_lookup_self {α : Type} (d : List (String × α)) (k : String)
    (f : α → α) (a : α) (h : alistLookup d k = some a) :
    alistLookup (alistModify d k f) k = some (f a) := by
  unfold alistLookup alistModify at *
  induction d with
  | nil => simp at h
  | cons p ps ih =>
    by_cases hp : p.1 = k
    · rw [List.find?_cons_of_pos _ (by simp [hp])] at h
      simp at h
      rw [List.map_cons, if_pos hp, List.find?_cons_of_pos _ (by simp)]
      rw [← h]
      rfl
    · rw [List.find?_cons_of_neg _ (by simp [hp])] at h
      rw [List.map_cons, if_neg hp, List.find?_cons_of_neg _ (by simp [hp])]
      exact ih h

theorem alistLookup_append_single {α : Type} (d : List (String × α))
    (k : String) (v : α) (h : alistLookup d k = none) :
    alistLookup (d ++ [(k, v)]) k = some v := by
  unfold alistLookup at *
  induction d with
  | nil => simp
  | cons p ps ih =>
    by_cases hp : p.1 = k
    · rw [List.find?_cons_of_pos _ (by simp [hp])] at h
      exact absurd h (by simp)
    · rw [List.find?_cons_of_neg _ (by simp [hp])] at h
      rw [List.cons_append, List.find?_cons_of_neg _ (by simp [hp])]
      exact ih h

theorem isSome_to_exists {α : Type} {o : Option α} (h : o.isSome = true) :
    ∃ a, o = some a := by
  cases o with
  | none => exact absurd h (by simp)
  | some a => exact ⟨a, rfl⟩

theorem registerStepOutput_lookup (st : StepOutputTable)
    (sid out path : String) (env : Envelope)
    (halign : (alistLookup st.step_outputs sid).isSome = true →
      (alistLookup st.step_envelopes sid).isSome = true) :
    ∃ m me,
      alistLookup (registerStepOutput st sid out path env).step_outputs sid
        = some m ∧
      alistLookup m out = some path ∧
      alistLookup (registerStepOutput st sid out path env).step_envelopes sid
        = some me ∧
      alistLookup me out = some env := by
  unfold registerStepOutput
  by_cases hs : (alistLookup st.step_outputs sid).isSome = true
  · rw [if_pos hs]
    obtain ⟨m0, hm0⟩ := isSome_to_exists hs
    obtain ⟨me0, hme0⟩ := isSome_to_exists (halign hs)
    refine ⟨alistSet m0 out path, alistSet me0 out env, ?_,
      alistSet_lookup_self _ _ _, ?_, alistSet_lookup_self _ _ _⟩
    · show alistLookup
        (alistModify st.step_outputs sid (fun m => alistSet m out path)) sid = _
      exact alistModify_lookup_self _ _ _ _ hm0
    · show alistLookup
        (alistModify st.step_envelopes sid (fun m => alistSet m out env)) sid = _
      exact alistModify_lookup_self _ _ _ _ hme0
  · rw [if_neg hs]
    refine ⟨alistSet [] out path, alistSet [] out env, ?_,
      alistSet_lookup_self _ _ _, ?_, alistSet_lookup_self _ _ _⟩
    · show alistLookup (alistModify (alistSet st.step_outputs sid []) sid
        (fun m => alistSet m out path)) sid = _
      exact alistModify_lookup_self _ _ _ _ (alistSet_lookup_self _ _ _)
    · show alistLookup (alistModify (alistSet st.step_envelopes sid []) sid
        (fun m => alistSet m out env)) sid = _
      exact alistModify_lookup_self _ _ _ _ (alistSet_lookup_self _ _ _)

/-- Claim C8: resolving a steps input reference fails with the distinct
not-executed-yet error when the step id is declared but has no registered
output, with the unknown-step error when the id is not declared at all, and
succeeds exactly when the named output has been registered, returning the
registered path, the envelope metadata semantic type, and the envelope. -/
theorem claim_C8_step_ref_resolution :
    (∀ (ids : List String) (st : StepOutputTable) (sid out : String),
        alistLookup st.step_outputs sid = none → sid ∈ ids →
        resolveStepRef ids st sid out
          = Except.error (RefErr.stepNotExecuted sid)) ∧
    (∀ (ids : List String) (st : StepOutputTable) (sid out : String),
        alistLookup st.step_outputs sid = none → sid ∉ ids →
        resolveStepRef ids st sid out
          = Except.error (RefErr.unknownStep sid)) ∧
    (∀ sid : String, RefErr.stepNotExecuted sid ≠ RefErr.unknownStep sid) ∧
    (∀ (ids : List String) (st : StepOutputTable) (sid out path : String)
        (env : Envelope) (sem : String),
        ((alistLookup st.step_outputs sid).isSome = true →
          (alistLookup st.step_envelopes sid).isSome = true) →
        jLookup env.metadata "semantic_type" = some (JVal.str sem) →
        resolveStepRef ids (registerStepOutput st sid out path env) sid out
          = Except.ok (path, sem, env)) ∧
    (∀ (ids : List String) (st : StepOutputTable) (sid out : String)
        (res : String × String × Envelope),
        resolveStepRef ids st sid out = Except.ok res →
        ∃ outputs path envs env sem,
          alistLookup st.step_outputs sid = some outputs ∧
          alistLookup outputs out = some path ∧
          alistLookup st.step_envelopes sid = some envs ∧
          alistLookup envs out = some env ∧
          jLookup env.metadata "semantic_type" = some (JVal.str sem) ∧
          res = (path, sem, env)) := by
  refine ⟨?_, ?_, ?_, ?_, ?_⟩
  · intro ids st sid out h hmem
    unfold resolveStepRef
    rw [h]
    show (if sid ∈ ids then _ else _) = _
    rw [if_pos hmem]
  · intro ids st sid out h hmem
    unfold resolveStepRef
    rw [h]
    show (if sid ∈ ids then _ else _) = _
    rw [if_neg hmem]
  · intro sid h
    exact RefErr.noConfusion h
  · intro ids st sid out path env sem halign hmeta
    obtain ⟨m, me, h1, h2, h3, h4⟩ :=
      registerStepOutput_lookup st sid out path env halign
    simp only [resolveStepRef, h1, h2, h3, h4, hmeta]
  · intro ids st sid out res hok
    unfold resolveStepRef at hok
    cases h1 : alistLookup st.step_outputs sid with
    | none =>
      simp only [h1] at hok
      by_cases hmem : sid ∈ ids
      · rw [if_pos hmem] at hok
        exact absurd hok (by simp)
      · rw [if_neg hmem] at hok
        exact absurd hok (by simp)
    | some outputs =>
      simp only [h1] at hok
      cases h2 : alistLookup outputs out with
      | none =>
        simp only [h2] at hok
        exact absurd hok (by simp)
      | some path =>
        simp only [h2] at hok
        cases h3 : alistLookup st.step_envelopes sid with
        | none =>
          simp only [h3] at hok
          exact absurd hok (by simp)
        | some envs =>
          simp only [h3] at hok
          cases h4 : alistLookup envs out with
          | none =>
            simp only [h4] at hok
            exact absurd hok (by simp)
          | some env =>
            simp only [h4] at hok
            cases h5 : jLookup env.metadata "semantic_type" with
            | none =>
              simp only [h5] at hok
              exact absurd hok (by simp)
            | some v =>
              simp only [h5] at hok
              cases v with
              | str sem =>
                refine ⟨outputs, path, envs, env, sem, rfl, h2, rfl, h4, h5, ?_⟩
                exact (Except.ok.inj hok).symm
              | null => exact absurd hok (by simp)
              | bool b => exact absurd hok (by simp)
              | num q => exact absurd hok (by simp)
              | arr xs => exact absurd hok (by simp)
              | obj fs => exact absurd hok (by simp)

/-! Orchestrator run control flow (orchestrator.py Orchestrator.run,
_collect_final_envelopes, _enrich_with_lineage). -/

/-- orchestrator.py StepDefinition: inputs are reference strings, params are
arbitrary values, outputs map output names to semantic types. -/
structure StepDefinition where
  id : String
  primitive : String
  version : String
  description : String
  inputs : List (String × String)
  outputs : List (String × String)
  params : List (String × JVal)

/-- orchestrator.py Lineage. -/
structure Lineage where
  curiosity_ref : String
  sub_question : Option String
  method_ref : String
  choices : List (String × JVal)

/-- The dependency set of one step as computed by build_dependency_graph:
extracted references of every input value and every param value, accumulated
into one set. -/
def stepDependencies (step : StepDefinition) : List String :=
  let d1 := step.inputs.foldl
    (fun acc p => setUnion acc (extractStepReferences (JVal.str p.2))) []
  step.params.foldl (fun acc p => setUnion acc (extractStepReferences p.2)) d1

/-- Claim-side notion for C2: a sink step is one whose id is not in any other
step's computed dependency set. -/
def isSinkStep (steps : List StepDefinition) (sid : String) : Bool :=
  steps.all (fun other => other.id == sid || !((stepDependencies other).contains sid))

/-- orchestrator.py StepResult (output_paths as an association list). -/
structure StepResult where
  step_id : String
  success : Bool
  envelope : Option Envelope
  output_paths : List (String × String)
  error : Option String := none
  message : Option String := none

/-- The part of OrchestrationResult the run loop constructs. -/
structure RunOutcome where
  success : Bool
  completed_steps : List String
  failed_step : Option String
  step_results : List (String × StepResult)
  final_envelopes : List (String × Envelope)

/-- Orchestrator._collect_final_envelopes: every successful step result with
an envelope, in table order. -/
def collectFinalEnvelopes (step_results : List (String × StepResult)) :
    List (String × Envelope) :=
  step_results.filterMap
    (fun p => if p.2.success then p.2.envelope.map (fun e => (p.1, e)) else none)

/-- The lineage dictionary _enrich_with_lineage builds from the experiment. -/
def lineageDict (lin : Lineage) (parameters : List (String × JVal)) : JVal :=
  JVal.obj
    [("curiosity", JVal.str lin.curiosity_ref),
     ("sub_question", optStrToJ lin.sub_question),
     ("method", JVal.str lin.method_ref),
     ("choices", JVal.obj lin.choices),
     ("parameters", JVal.obj parameters)]

/-- Orchestrator._enrich_with_lineage: set metadata["lineage"] on every
envelope of the map. -/
def enrichWithLineage (ld : JVal) (envs : List (String × Envelope)) :
    List (String × Envelope) :=
  envs.map (fun p =>
    (p.1, Envelope.mk p.2.data (jSet p.2.metadata "lineage" ld)
      p.2.provenance p.2.warnings))

/-- The step-execution loop of Orchestrator.run, parametric in the outcome
of _execute_step: execute in order, record each result, stop at the first
failure (collecting but not enriching), and on completion collect and then
enrich the final envelopes. -/
def runLoop (exec : String → StepResult) (ld : JVal) :
    List String → List (String × StepResult) → List String → RunOutcome
  | [], step_results, completed =>
    { success := true, completed_steps := completed, failed_step := none,
      step_results := step_results,
      final_envelopes := enrichWithLineage ld (collectFinalEnvelopes step_results) }
  | sid :: rest, step_results, completed =>
    let r := exec sid
    let step_results2 := alistSet step_results sid r
    if r.success then runLoop exec ld rest step_results2 (completed ++ [sid])
    else
      { success := false, completed_steps := completed, failed_step := some sid,
        step_results := step_results2,
        final_envelopes := collectFinalEnvelopes step_results2 }

/-- Orchestrator.run after a validation pass with no fatal errors. -/
def orchestratorRun (exec : String → StepResult) (ld : JVal)
    (order : List String) : RunOutcome :=
  runLoop exec ld order [] []

theorem alistSet_append_of_not_mem {α : Type} (d : List (String × α))
    (k : String) (v : α) (h : k ∉ d.map Prod.fst) :
    alistSet d k v = d ++ [(k, v)] := by
  unfold alistSet
  rw [if_neg]
  intro hs
  obtain ⟨p, hp⟩ := isSome_to_exists hs
  have hmem := List.mem_of_find?_eq_some hp
  have heq := List.find?_some hp
  simp at heq
  exact h (List.mem_map.mpr ⟨p, hmem, heq⟩)

theorem foldl_alistSet_fresh (exec : String → StepResult) :
    ∀ (l : List String) (acc : List (String × StepResult)),
      (∀ sid ∈ l, sid ∉ acc.map Prod.fst) → l.Nodup →
      l.foldl (fun a sid => alistSet a sid (exec sid)) acc
        = acc ++ l.map (fun sid => (sid, exec sid)) := by
  intro l
  induction l with
  | nil => intro acc _ _; simp
  | cons sid l2 ih =>
    intro acc hfresh hnodup
    rw [List.foldl_cons,
      alistSet_append_of_not_mem acc sid (exec sid)
        (hfresh sid (List.mem_cons_self sid l2)),
      ih (acc ++ [(sid, exec sid)]) ?_ (List.nodup_cons.mp hnodup).2]
    · simp
    · intro s2 hs2
      rw [List.map_append]
      intro hmem
      rcases List.mem_append.mp hmem with h1 | h2
      · exact hfresh s2 (List.mem_cons_of_mem sid hs2) h1
      · simp at h2
        rw [h2] at hs2
        exact (List.nodup_cons.mp hnodup).1 hs2

theorem runLoop_first_fail (exec : String → StepResult) (ld : JVal)
    (fail : String) (post : List String) (hfail : (exec fail).success = false) :
    ∀ (pre : List String) (acc_r : List (String × StepResult))
      (acc_c : List String),
      (∀ sid ∈ pre, (exec sid).success = true) →
      runLoop exec ld (pre ++ fail :: post) acc_r acc_c
        = { success := false,
            completed_steps := acc_c ++ pre,
            failed_step := some fail,
            step_results := alistSet
              (pre.foldl (fun a sid => alistSet a sid (exec sid)) acc_r)
              fail (exec fail),
            final_envelopes := collectFinalEnvelopes (alistSet
              (pre.foldl (fun a sid => alistSet a sid (exec sid)) acc_r)
              fail (exec fail)) } := by
  intro pre
  induction pre with
  | nil =>
    intro acc_r acc_c _
    show runLoop exec ld (fail :: post) acc_r acc_c = _
    unfold runLoop
    rw [if_neg (by rw [hfail]; simp)]
    simp
  | cons p pre2 ih =>
    intro acc_r acc_c hpre
    show runLoop exec ld (p :: (pre2 ++ fail :: post)) acc_r acc_c = _
    unfold runLoop
    rw [if_pos (hpre p (List.mem_cons_self p pre2))]
    rw [ih (alistSet acc_r p (exec p)) (acc_c ++ [p])
      (fun sid hs => hpre sid (List.mem_cons_of_mem p hs))]
    simp

theorem runLoop_all_success (exec : String → StepResult) (ld : JVal) :
    ∀ (order : List String) (acc_r : List (String × StepResult))
      (acc_c : List String),
      (∀ sid ∈ order, (exec sid).success = true) →
      runLoop exec ld order acc_r acc_c
        = { success := true,
            completed_steps := acc_c ++ order,
            failed_step := none,
            step_results := order.foldl
              (fun a sid => alistSet a sid (exec sid)) acc_r,
            final_envelopes := enrichWithLineage ld (collectFinalEnvelopes
              (order.foldl (fun a sid => alistSet a sid (exec sid)) acc_r)) } := by
  intro order
  induction order with
  | nil =>
    intro acc_r acc_c _
    show runLoop exec ld [] acc_r acc_c = _
    unfold runLoop
    simp
  | cons p rest ih =>
    intro acc_r acc_c hall
    show runLoop exec ld (p :: rest) acc_r acc_c = _
    unfold runLoop
    rw [if_pos (hall p (List.mem_cons_self p rest))]
    rw [ih (alistSet acc_r p (exec p)) (acc_c ++ [p])
      (fun sid hs => hall sid (List.mem_cons_of_mem p hs))]
    simp

/-- Claim C5: when some step of the plan fails, the run stops at the first
failing step in steps_in_order: the result has success False, failed_step is
that step, completed_steps is exactly the list of steps before it in order,
step_results records exactly those steps plus the failing one, and every
later step is absent from both completed_steps and step_results. -/
theorem claim_C5_first_failure_stops_run (exec : String → StepResult)
    (ld : JVal) (order pre post : List String) (fail : String)
    (horder : order = pre ++ fail :: post) (hnodup : order.Nodup)
    (hpre : ∀ sid ∈ pre, (exec sid).success = true)
    (hfail : (exec fail).success = false) :
    (orchestratorRun exec ld order).success = false ∧
    (orchestratorRun exec ld order).failed_step = some fail ∧
    (orchestratorRun exec ld order).completed_steps = pre ∧
    (orchestratorRun exec ld order).step_results.map Prod.fst
      = pre ++ [fail] ∧
    (∀ sid ∈ post, sid ∉ (orchestratorRun exec ld order).completed_steps ∧
      alistLookup (orchestratorRun exec ld order).step_results sid = none) := by
  have hprend : pre.Nodup := by
    rw [horder] at hnodup
    exact (List.nodup_append.mp hnodup).1
  have hkeys : (orchestratorRun exec ld order).step_results.map Prod.fst
      = pre ++ [fail] := by
    unfold orchestratorRun
    rw [horder, runLoop_first_fail exec ld fail post hfail pre [] [] hpre]
    show (alistSet (pre.foldl (fun a sid => alistSet a sid (exec sid)) [])
      fail (exec fail)).map Prod.fst = _
    rw [foldl_alistSet_fresh exec pre [] (by simp) hprend, List.nil_append]
    have hfailmem : fail ∉ (pre.map (fun sid => (sid, exec sid))).map Prod.fst := by
      rw [List.map_map]
      intro hm
      rcases List.mem_map.mp hm with ⟨sid, hs, he⟩
      simp at he
      rw [horder] at hnodup
      rcases List.nodup_append.mp hnodup with ⟨_, _, hdisj⟩
      exact hdisj hs (by rw [he]; exact List.mem_cons_self fail post)
    rw [alistSet_append_of_not_mem _ fail (exec fail) hfailmem]
    rw [List.map_append, List.map_map]
    rw [show (Prod.fst ∘ fun sid => (sid, exec sid)) = id from rfl, List.map_id]
    simp
  refine ⟨?_, ?_, ?_, hkeys, ?_⟩
  · unfold orchestratorRun
    rw [horder, runLoop_first_fail exec ld fail post hfail pre [] [] hpre]
  · unfold orchestratorRun
    rw [horder, runLoop_first_fail exec ld fail post hfail pre [] [] hpre]
  · unfold orchestratorRun
    rw [horder, runLoop_first_fail exec ld fail post hfail pre [] [] hpre]
    simp
  · intro s2 hs2
    rw [horder] at hnodup
    rcases List.nodup_append.mp hnodup with ⟨_, hpostnd, hdisj⟩
    constructor
    · unfold orchestratorRun
      rw [horder, runLoop_first_fail exec ld fail post hfail pre [] [] hpre]
      show s2 ∉ ([] : List String) ++ pre
      rw [List.nil_append]
      intro hmem
      exact hdisj hmem (List.mem_cons_of_mem fail hs2)
    · apply alistLookup_eq_none_of_not_mem
      rw [hkeys]
      intro hmem
      rcases List.mem_append.mp hmem with h1 | h2
      · exact hdisj h1 (List.mem_cons_of_mem fail hs2)
      · simp at h2
        rw [h2] at hs2
        exact (List.nodup_cons.mp hpostnd).1 hs2

theorem jLookup_jSet_self (d : List (String × JVal)) (k : String) (v : JVal) :
    jLookup (jSet d k v) k = some v :=
  alistSet_lookup_self d k v

theorem enrichWithLineage_keys (ld : JVal) (envs : List (String × Envelope)) :
    (enrichWithLineage ld envs).map Prod.fst = envs.map Prod.fst := by
  unfold enrichWithLineage
  rw [List.map_map]
  exact List.map_congr_left (fun p _ => rfl)

theorem enrichWithLineage_lookup (ld : JVal) (envs : List (String × Envelope)) :
    ∀ p ∈ enrichWithLineage ld envs,
      jLookup p.2.metadata "lineage" = some ld := by
  intro p hp
  rcases List.mem_map.mp hp with ⟨q, _, hq⟩
  rw [← hq]
  exact jLookup_jSet_self q.2.metadata "lineage" ld

theorem collect_all_success_keys (exec : String → StepResult) :
    ∀ order : List String,
      (∀ sid ∈ order, (exec sid).success = true) →
      (∀ sid ∈ order, (exec sid).envelope.isSome = true) →
      (collectFinalEnvelopes
        (order.map (fun sid => (sid, exec sid)))).map Prod.fst = order := by
  intro order
  induction order with
  | nil => intro _ _; rfl
  | cons sid rest ih =>
    intro hall henv
    obtain ⟨env, henveq⟩ :=
      isSome_to_exists (henv sid (List.mem_cons_self sid rest))
    rw [List.map_cons]
    unfold collectFinalEnvelopes
    rw [List.filterMap_cons_some (b := (sid, env))
      (by rw [if_pos (hall sid (List.mem_cons_self sid rest)), henveq]; rfl)]
    show sid :: (collectFinalEnvelopes
      (rest.map (fun s2 => (s2, exec s2)))).map Prod.fst = sid :: rest
    rw [ih (fun s2 hs => hall s2 (List.mem_cons_of_mem sid hs))
      (fun s2 hs => henv s2 (List.mem_cons_of_mem sid hs))]

/-- Claim C2 (amended): on a fully successful run in which every step
produces an envelope, run collects the envelopes of ALL completed steps as
final_envelopes (one entry per step of the plan) and applies lineage
enrichment to every one of them, sink or not. -/
theorem claim_C2_lineage_enrichment (exec : String → StepResult) (ld : JVal)
    (order : List String) (hnodup : order.Nodup)
    (hall : ∀ sid ∈ order, (exec sid).success = true)
    (henv : ∀ sid ∈ order, (exec sid).envelope.isSome = true) :
    (orchestratorRun exec ld order).success = true ∧
    (orchestratorRun exec ld order).completed_steps = order ∧
    (orchestratorRun exec ld order).final_envelopes.map Prod.fst = order ∧
    (∀ p ∈ (orchestratorRun exec ld order).final_envelopes,
      jLookup p.2.metadata "lineage" = some ld) := by
  have hrun := runLoop_all_success exec ld order [] [] hall
  have hfold : order.foldl (fun a sid => alistSet a sid (exec sid)) []
      = order.map (fun sid => (sid, exec sid)) := by
    rw [foldl_alistSet_fresh exec order [] (by simp) hnodup, List.nil_append]
  refine ⟨?_, ?_, ?_, ?_⟩
  · unfold orchestratorRun
    rw [hrun]
  · unfold orchestratorRun
    rw [hrun]
    simp
  · unfold orchestratorRun
    rw [hrun]
    show (enrichWithLineage ld (collectFinalEnvelopes
      (order.foldl (fun a sid => alistSet a sid (exec sid)) []))).map Prod.fst
      = order
    rw [enrichWithLineage_keys, hfold, collect_all_success_keys exec order hall henv]
  · unfold orchestratorRun
    rw [hrun]
    intro p hp
    exact enrichWithLineage_lookup ld _ p hp

/-- Two steps where the second consumes the first's output: a is not a sink. -/
def stepsC2 : List StepDefinition :=
  [{ id := "a", primitive := "soil/fetch", version := "1.0.0",
     description := "", inputs := [("data", "$manifest.parks")],
     outputs := [("out", "t1")], params := [] },
   { id := "b", primitive := "soil/use", version := "1.0.0",
     description := "", inputs := [("x", "$steps.a.out")],
     outputs := [("out", "t2")], params := [] }]

def envT : Envelope :=
  Envelope.mk [("path", JVal.str "p")] [("semantic_type", JVal.str "t")] [] []

def execC2 : String → StepResult := fun sid =>
  { step_id := sid, success := true, envelope := some envT, output_paths := [] }

def ldC2 : JVal :=
  lineageDict
    { curiosity_ref := "curiosities/cooling", sub_question := none,
      method_ref := "methods/thermal", choices := [] } []

/-- Claim C2 counterexample: in a two-step experiment where step b consumes
the output of step a, step a is not a sink, yet on a fully successful run
the result's final_envelopes contains an entry for a and that Envelope has
been enriched with metadata.lineage: final envelope collection takes every
successful step, not only sinks. -/
theorem claim_C2_counterexample :
    isSinkStep stepsC2 "a" = false ∧
    alistLookup (orchestratorRun execC2 ldC2 ["a", "b"]).final_envelopes "a"
      = some (Envelope.mk [("path", JVal.str "p")]
          (jSet [("semantic_type", JVal.str "t")] "lineage" ldC2) [] []) ∧
    jLookup (jSet [("semantic_type", JVal.str "t")] "lineage" ldC2) "lineage"
      = some ldC2 := by
  refine ⟨rfl, rfl, rfl⟩

theorem claim_C2_lineage_enrichment_witness :
    (orchestratorRun execC2 ldC2 ["a", "b"]).success = true ∧
    (orchestratorRun execC2 ldC2 ["a", "b"]).completed_steps = ["a", "b"] ∧
    (orchestratorRun execC2 ldC2 ["a", "b"]).final_envelopes.map Prod.fst
      = ["a", "b"] := by
  have h := claim_C2_lineage_enrichment execC2 ldC2 ["a", "b"]
    (by decide) (fun sid _ => rfl) (fun sid _ => rfl)
  exact ⟨h.1, h.2.1, h.2.2.1⟩

def execC5 : String → StepResult := fun sid =>
  if sid == "b" then
    { step_id := sid, success := false, envelope := none, output_paths := [],
      error := some "Primitive execution failed" }
  else
    { step_id := sid, success := true, envelope := some envT, output_paths := [] }

theorem claim_C5_first_failure_stops_run_witness :
    (orchestratorRun execC5 JVal.null ["a", "b", "c"]).success = false ∧
    (orchestratorRun execC5 JVal.null ["a", "b", "c"]).failed_step = some "b" ∧
    (orchestratorRun execC5 JVal.null ["a", "b", "c"]).completed_steps = ["a"] ∧
    (orchestratorRun execC5 JVal.null ["a", "b", "c"]).step_results.map Prod.fst
      = ["a", "b"] ∧
    ("c" ∉ (orchestratorRun execC5 JVal.null ["a", "b", "c"]).completed_steps ∧
      alistLookup (orchestratorRun execC5 JVal.null
        ["a", "b", "c"]).step_results "c" = none) := by
  have h := claim_C5_first_failure_stops_run execC5 JVal.null
    ["a", "b", "c"] ["a"] ["c"] "b" rfl (by decide) (by decide) (by decide)
  exact ⟨h.1, h.2.1, h.2.2.1, h.2.2.2.1, h.2.2.2.2 "c" (by decide)⟩


/-! ### dependencies.py: dependency graph, cycle detection, topological sort

A dependency graph `dict[str, set[str]]` is embedded as an association list
`List (String × List String)` in insertion order; `depsOf` is `graph.get(node, set())`
via first-match lookup.  Keys are unique in a Python dict (`KeysNodup`), values are
sets (`DepsNodup`), and `build_dependency_graph` only returns graphs whose
dependency ids are themselves keys (`Closed`). -/

def nodesOf (g : List (String × List String)) : List String := g.map Prod.fst

def depsOf (g : List (String × List String)) (n : String) : List String :=
  (alistLookup g n).getD []

/-- There is an edge from `a` to `b` when `b ∈ graph[a]`: `a` depends on `b`. -/
def EdgeTo (g : List (String × List String)) (a b : String) : Prop :=
  b ∈ depsOf g a

/-- A cycle: a nonempty edge path `u → l₀ → l₁ → ⋯` whose last vertex is `u` again. -/
def HasCycle (g : List (String × List String)) : Prop :=
  ∃ u l, l ≠ [] ∧ List.Chain (EdgeTo g) u l ∧ l.getLast? = some u

def Closed (g : List (String × List String)) : Prop :=
  ∀ p ∈ g, ∀ d ∈ p.2, d ∈ nodesOf g

def KeysNodup (g : List (String × List String)) : Prop := (nodesOf g).Nodup

def DepsNodup (g : List (String × List String)) : Prop := ∀ p ∈ g, p.2.Nodup

/-- Each entry of `order` comes after all of its dependencies. -/
def RespectsDeps (g : List (String × List String)) (order : List String) : Prop :=
  ∀ l1 n l2, order = l1 ++ n :: l2 → ∀ d ∈ depsOf g n, d ∈ l1

/-- _detect_cycle colors: WHITE, GRAY, BLACK = 0, 1, 2. -/
def WHITE : Nat := 0

def GRAY : Nat := 1

def BLACK : Nat := 2

/-- The mutable state of _detect_cycle: the `color` and `parent` dicts
(total functions; only graph keys are ever touched). -/
structure DfsState where
  color : String → Nat
  parent : String → Option String

def setColor (s : DfsState) (n : String) (c : Nat) : DfsState :=
  ⟨fun x => if x = n then c else s.color x, s.parent⟩

def setParent (s : DfsState) (n : String) (p : String) : DfsState :=
  ⟨s.color, fun x => if x = n then some p else s.parent x⟩

/-- The `while current != cycle_start: cycle.append(current); current = parent[current]`
walk of _detect_cycle, with fuel (the Python loop relies on parent pointers forming
a chain; no claim inspects the returned list, only its existence). -/
def cycleWalk (parent : String → Option String) :
    Nat → String → String → List String
  | 0, _, _ => []
  | fuel + 1, start, current =>
    if current = start then []
    else current :: (match parent current with
      | some p => cycleWalk parent fuel start p
      | none => [])

/-- Cycle reconstruction of _detect_cycle:
`[cycle_start] ++ walk(node…) ++ [cycle_start]`, reversed. -/
def reconstructCycle (parent : String → Option String) (fuel : Nat)
    (cycle_start node : String) : List String :=
  (cycle_start :: (cycleWalk parent fuel cycle_start node ++ [cycle_start])).reverse

/-- The `for neighbor in graph.get(node, set())` loop of the inner `dfs` of
_detect_cycle, followed by `color[node] = BLACK; return None` when the neighbor
list is exhausted.  `rec` is the recursive `dfs` call (supplied by `dfsVisit`
with one unit of fuel less). -/
def dfsGo (g : List (String × List String))
    (rec : String → DfsState → Option (List String) × DfsState) (node : String) :
    List String → DfsState → Option (List String) × DfsState
  | [], s => (none, setColor s node BLACK)
  | nb :: rest, s =>
    if s.color nb = GRAY then
      (some (reconstructCycle s.parent (g.length + 1) nb node), s)
    else if s.color nb = WHITE then
      match rec nb (setParent s nb node) with
      | (some c, s3) => (some c, s3)
      | (none, s3) => dfsGo g rec node rest s3
    else dfsGo g rec node rest s

/-- The inner `dfs` of _detect_cycle.  Python recursion is replaced by fuel; the
fuel-out branch returns a dummy cycle (it is proven unreachable for the fuel
`detectCycle` supplies).  The callers only invoke `dfs` on WHITE nodes, which the
guard makes explicit. -/
def dfsVisit (g : List (String × List String)) :
    Nat → String → DfsState → Option (List String) × DfsState
  | 0, _, s => (some [], s)
  | fuel + 1, node, s =>
    if s.color node = WHITE then
      dfsGo g (dfsVisit g fuel) node (depsOf g node) (setColor s node GRAY)
    else (none, s)

/-- The `for node in graph: if color[node] == WHITE: …` loop of _detect_cycle. -/
def detectTop (g : List (String × List String)) :
    List String → DfsState → Option (List String)
  | [], _ => none
  | n :: rest, s =>
    if s.color n = WHITE then
      match dfsVisit g (g.length + 1) n s with
      | (some c, _) => some c
      | (none, s2) => detectTop g rest s2
    else detectTop g rest s

/-- `color = {node: WHITE for node in graph}; parent = {node: None for node in graph}`. -/
def initDfsState : DfsState := ⟨fun _ => WHITE, fun _ => none⟩

/-- DependencyResolver._detect_cycle. -/
def detectCycle (g : List (String × List String)) : Option (List String) :=
  detectTop g (nodesOf g) initDfsState



/-- `queue.sort()` / `sorted(...)` on step-id strings. -/
def sortStrings (l : List String) : List String :=
  l.mergeSort (fun a b => decide (a ≤ b))

/-- The inner `for other, deps in graph.items(): if node in deps: …` loop of
Kahn's algorithm in topological_sort: decrement `in_degree[other]`, and when it
reaches 0, `queue.append(other); queue.sort()`. -/
def kahnScan (node : String) :
    List (String × List String) → (String → Int) → List String →
    (String → Int) × List String
  | [], d, q => (d, q)
  | (other, deps) :: rest, d, q =>
    if node ∈ deps then
      let d2 : String → Int := fun x => if x = other then d other - 1 else d x
      if d2 other = 0 then kahnScan node rest d2 (sortStrings (q ++ [other]))
      else kahnScan node rest d2 q
    else kahnScan node rest d q

/-- The `while queue:` loop of topological_sort: pop the queue head, append it to
`result`, rescan the graph.  Fuel replaces the unbounded while loop; the fuel-out
branch is proven unreachable for the fuel `topologicalSort` supplies. -/
def kahnLoop (g : List (String × List String)) :
    Nat → List String → (String → Int) → List String → List String
  | _, [], _, result => result
  | 0, _ :: _, _, result => result
  | fuel + 1, node :: rest, d, result =>
    let p := kahnScan node g d rest
    kahnLoop g fuel p.2 p.1 (result ++ [node])

/-- `in_degree = {node: 0 for node in graph}` then `in_degree[node] = len(deps)`:
with unique keys, `in_degree[n] = len(graph[n])`. -/
def initInDegree (g : List (String × List String)) : String → Int :=
  fun n => ((depsOf g n).length : Int)

/-- `queue = sorted([node for node, degree in in_degree.items() if degree == 0])`. -/
def kahnQueue0 (g : List (String × List String)) : List String :=
  sortStrings ((nodesOf g).filter (fun n => initInDegree g n == 0))

/-- DependencyResolver.topological_sort: detect a cycle first (ValueError with the
cycle), then Kahn's algorithm, then the `len(result) != len(graph)` sanity check
(ValueError "Internal error: …"; the remaining-steps text is elided). -/
def topologicalSort (g : List (String × List String)) :
    Except String (List String) :=
  match detectCycle g with
  | some cycle =>
    .error ("Circular dependency detected in experiment steps:\n  " ++
      String.intercalate " -> " cycle ++
      "\nEach step in this cycle depends on another step in the cycle. " ++
      "Restructure your experiment to break the loop.")
  | none =>
    let result := kahnLoop g (g.length + 1) (kahnQueue0 g) (initInDegree g) []
    if result.length ≠ g.length then
      .error "Internal error: topological sort incomplete."
    else .ok result

def stepIds (steps : List StepDefinition) : List String :=
  steps.map (fun s => s.id)

/-- The `for step in self.experiment.steps:` loop of build_dependency_graph:
compute the step dependency set, raise ValueError on the first dependency that is
not a step id (set iteration order modelled as list order), else record
`graph[step.id] = dependencies`. -/
def buildGraphLoop (ids : List String) : List StepDefinition →
    Except String (List (String × List String))
  | [] => .ok []
  | step :: rest =>
    let dependencies := stepDependencies step
    match dependencies.find? (fun d => !(ids.contains d)) with
    | some dep_id =>
      .error ("Step \x27" ++ step.id ++ "\x27 references unknown step \x27" ++
        dep_id ++ "\x27.")
    | none =>
      match buildGraphLoop ids rest with
      | .error e => .error e
      | .ok gr => .ok ((step.id, dependencies) :: gr)

/-- DependencyResolver.build_dependency_graph (dict in insertion order; duplicate
step ids would overwrite in Python, so claims assume unique ids). -/
def buildDependencyGraph (steps : List StepDefinition) :
    Except String (List (String × List String)) :=
  buildGraphLoop (stepIds steps) steps

/-- dependencies.py ExecutionPlan. -/
structure ExecutionPlan where
  steps_in_order : List String
  dependency_graph : List (String × List String)

/-- DependencyResolver.create_execution_plan. -/
def createExecutionPlan (steps : List StepDefinition) :
    Except String ExecutionPlan :=
  match buildDependencyGraph steps with
  | .error e => .error e
  | .ok graph =>
    match topologicalSort graph with
    | .error e => .error e
    | .ok order => .ok ⟨order, graph⟩

end RC